import Mathlib

/-!
Verification development for the IPMC configuration scripts.

This file gives a shallow embedding of the protocol driver found in
`configure_ipmc.py` and `util.py`: the command codec (`get_commands`,
`validate_config`), the echo/prompt exchange (`write_command_and_read_output`),
the status-dump parser and verifier (`validate_command_output`), and the
orchestrator loop of `main`.  Python strings are lists of characters, the
byte stream of the socket is a list of byte values (an exhausted stream
models a read on which no byte arrives inside the timeout window, i.e. a
`socket.timeout`), and Python dictionaries are insertion lists read through
a last-binding-wins lookup.
-/

/-- Python strings are modelled as lists of characters. -/
abbrev Str := List Char

/-- Convert a Lean string literal into the character-list model. -/
def chars (s : String) : Str := s.data

/-- Whitespace characters stripped by Python `str.strip()`. -/
def pyIsSpace (c : Char) : Bool :=
  c = ' ' || c = '\t' || c = '\n' || c = '\r' || c = Char.ofNat 11 || c = Char.ofNat 12

/-- Python `str.strip()`: remove whitespace from both ends of the string. -/
def pyStrip (s : Str) : Str :=
  ((s.dropWhile pyIsSpace).reverse.dropWhile pyIsSpace).reverse

/-- Auxiliary for `splitOnChar`; the current chunk is accumulated in reverse. -/
def splitOnCharAux (c : Char) : List Char → List Char → List Str
  | [], acc => [acc.reverse]
  | x :: xs, acc =>
    if x = c then acc.reverse :: splitOnCharAux c xs []
    else splitOnCharAux c xs (x :: acc)

/-- Python `str.split(sep)` for a one-character separator: every occurrence
of the separator starts a new chunk, and empty chunks are kept. -/
def splitOnChar (c : Char) (s : Str) : List Str := splitOnCharAux c s []

/-- Python `str.replace(old, new)` for one-character arguments. -/
def pyReplace (old new : Char) (s : Str) : Str :=
  s.map (fun ch => if ch = old then new else ch)

/-- Decimal digit character. -/
def decDigitChar (n : Nat) : Char := Char.ofNat (48 + n)

/-- Decimal digits of a natural number; fuel-based so the kernel can reduce it. -/
def natDigitsAux : Nat → Nat → Str
  | 0, _ => []
  | fuel + 1, n =>
    if n < 10 then [decDigitChar n]
    else natDigitsAux fuel (n / 10) ++ [decDigitChar (n % 10)]

/-- Python `str(n)` for a nonnegative integer (all values in the scripts). -/
def pyStrNat (n : Nat) : Str := natDigitsAux (n + 1) n

/-- Uppercase hexadecimal digit character. -/
def hexDigitChar (n : Nat) : Char :=
  if n < 10 then Char.ofNat (48 + n) else Char.ofNat (55 + n)

/-- Uppercase hexadecimal digits of a natural number; fuel-based. -/
def hexDigitsAux : Nat → Nat → Str
  | 0, _ => []
  | fuel + 1, n =>
    if n < 16 then [hexDigitChar n]
    else hexDigitsAux fuel (n / 16) ++ [hexDigitChar (n % 16)]

/-- Python format `f'0x{n:02X}'` for a nonnegative integer: literal `0x`
followed by the uppercase hex digits zero-padded to width two. -/
def fmt02X (n : Nat) : Str :=
  let h := hexDigitsAux (n + 1) n
  chars "0x" ++ (if h.length < 2 then List.replicate (2 - h.length) '0' ++ h else h)

/-- A configuration value read from the YAML file: an integer or a string. -/
inductive ConfigVal
  | vint (n : Nat)
  | vstr (s : Str)
deriving DecidableEq

/-- Python `str()` applied to a configuration value. -/
def pyStrVal : ConfigVal → Str
  | ConfigVal.vint n => pyStrNat n
  | ConfigVal.vstr s => s

/-- The raw configuration mapping: group name to field name to value. -/
abbrev Config := List (Str × List (Str × ConfigVal))

/-- Python dict lookup over an insertion list: the last binding for a key wins. -/
def lookupLast {α : Type} (m : List (Str × α)) (k : Str) : Option α :=
  m.foldl (fun acc p => if p.1 = k then some p.2 else acc) none

/-- The mapping of configuration fields to the commands that set them
(`CONFIG_TO_COMMANDS` in `configure_ipmc.py`), in declaration order. -/
def CONFIG_TO_COMMANDS : List (Str × List (Str × Str)) :=
  [ (chars "board", [(chars "serial", chars "idwr"), (chars "rev", chars "revwr")])
  , (chars "eeprom", [(chars "version", chars "verwr")])
  , (chars "zynq", [(chars "bootmode", chars "bootmode")])
  , (chars "mac", [(chars "eth0", chars "ethmacwr 0"), (chars "eth1", chars "ethmacwr 1")]) ]

/-- Inner loop of `validate_config`: check the subkeys of one group, failing
at the first missing one (Python `assert`). -/
def checkSubkeys (sub : List (Str × ConfigVal)) : List Str → Except Str Unit
  | [] => Except.ok ()
  | sk :: rest =>
    match lookupLast sub sk with
    | none => Except.error (chars "Sub-key cannot be found: " ++ sk)
    | some _ => checkSubkeys sub rest

/-- Outer loop of `validate_config`: walk the command table and check that
every group and every field within a group is present. -/
def validateConfigAux (config : Config) : List (Str × List (Str × Str)) → Except Str Unit
  | [] => Except.ok ()
  | (key, item) :: rest =>
    match lookupLast config key with
    | none => Except.error (chars "Key cannot be found: " ++ key)
    | some sub =>
      match checkSubkeys sub (item.map Prod.fst) with
      | Except.error e => Except.error e
      | Except.ok _ => validateConfigAux config rest

/-- The function `validate_config` of `configure_ipmc.py`: make sure all the
required keys are in place for the configuration. -/
def validate_config (config : Config) : Except Str Unit :=
  validateConfigAux config CONFIG_TO_COMMANDS

/-- Inner loop of `get_commands`: commands of one group. A missing field is a
Python `KeyError` (the function is only run after `validate_config`). -/
def getCommandsGroup (sub : List (Str × ConfigVal)) : List (Str × Str) → Except Str (List Str)
  | [] => Except.ok []
  | (subkey, commandbase) :: rest =>
    match lookupLast sub subkey with
    | none => Except.error (chars "KeyError: " ++ subkey)
    | some v =>
      match getCommandsGroup sub rest with
      | Except.error e => Except.error e
      | Except.ok cs =>
        Except.ok ((commandbase ++ [' '] ++ pyReplace ':' ' ' (pyStrVal v) ++ chars "\r\n") :: cs)

/-- Outer loop of `get_commands` over the command table. -/
def getCommandsAux (config : Config) : List (Str × List (Str × Str)) → Except Str (List Str)
  | [] => Except.ok []
  | (key, item) :: rest =>
    match lookupLast config key with
    | none => Except.error (chars "KeyError: " ++ key)
    | some sub =>
      match getCommandsGroup sub item with
      | Except.error e => Except.error e
      | Except.ok cs =>
        match getCommandsAux config rest with
        | Except.error e => Except.error e
        | Except.ok cs2 => Except.ok (cs ++ cs2)

/-- The function `get_commands` of `configure_ipmc.py`: for every field of the
command table, build `f"{commandbase} {str(value).replace(colon, space)}\r\n"`. -/
def get_commands (config : Config) : Except Str (List Str) :=
  getCommandsAux config CONFIG_TO_COMMANDS

/-- The configuration steps of `main` before any connection is made:
`validate_config` runs first, and only if it passes is `get_commands` run. -/
def configure_pipeline (config : Config) : Except Str (List Str) :=
  match validate_config config with
  | Except.error e => Except.error e
  | Except.ok _ => get_commands config

/-- A configuration with the five required groups present and typed as in the
canonical YAML file; this is the shape `validate_command_output` reads
(`config["eeprom"]["version"]` as an integer, and so on). -/
structure ConfigT where
  serial : Nat
  rev : Nat
  version : Nat
  bootmode : Nat
  eth0 : Str
  eth1 : Str

/-- The `expected` dictionary built at the top of `validate_command_output`. -/
def expected_of (c : ConfigT) : List (Str × Str) :=
  [ (chars "prom version", fmt02X c.version)
  , (chars "bootmode", fmt02X c.bootmode)
  , (chars "hw", chars "rev" ++ pyStrNat c.rev ++ chars " #" ++ pyStrNat c.serial)
  , (chars "eth0_mac", c.eth0)
  , (chars "eth1_mac", c.eth1) ]

/-- One iteration of the token loop of `validate_command_output`: a line
without `=` is skipped; otherwise the key is the stripped text before the
first `=` and, when the key is one of the expected keys, the value is the
stripped text after the last `=` (`split_items[0]` / `split_items[-1]`). -/
def lineEntry (keys : List Str) (token : Str) : Option (Str × Str) :=
  if token.contains '=' then
    let items := splitOnChar '=' token
    let k := pyStrip items.headI
    if keys.contains k then some (k, pyStrip items.getLastI) else none
  else none

/-- The mapping extraction of `validate_command_output`: split the output on
newlines and collect the entries of the lines; the dictionary is read through
`lookupLast`, so a later duplicate key wins. -/
def extract_mapping (keys : List Str) (output : Str) : List (Str × Str) :=
  (splitOnChar '\n' output).filterMap (lineEntry keys)

/-- The diagnostics printed by the comparison loop of `validate_command_output`:
a missing expected key, a mismatching expected key, or the final `OK`. -/
inductive VEvent
  | keyNotFound (k : Str)
  | keyMismatch (k : Str)
  | okAll
deriving DecidableEq

/-- The comparison loop of `validate_command_output`: walk the expected keys in
order and return `False` at the first missing or mismatching key, reporting
that key; report `OK` and return `True` only after all keys passed. -/
def compareLoop (mapping : List (Str × Str)) : List (Str × Str) → List VEvent × Bool
  | [] => ([VEvent.okAll], true)
  | (k, v) :: rest =>
    match lookupLast mapping k with
    | none => ([VEvent.keyNotFound k], false)
    | some w => if w = v then compareLoop mapping rest else ([VEvent.keyMismatch k], false)

/-- The function `validate_command_output(output, config)` of
`configure_ipmc.py`, returning its printed diagnostics and boolean result. -/
def validate_command_output (output : Str) (config : ConfigT) : List VEvent × Bool :=
  let expected := expected_of config
  let mapping := extract_mapping (expected.map Prod.fst) output
  compareLoop mapping expected

/-- Read and discard `n` bytes from the stream (`sock.recv(1)` repeated);
`none` models a `socket.timeout` on an exhausted stream. -/
def recvN : Nat → List Nat → Option (List Nat)
  | 0, s => some s
  | _ + 1, [] => none
  | n + 1, _ :: rest => recvN n rest

/-- The receive loop of `write_command_and_read_output`: while `counter <
max_size`, read one byte; a byte equal to `read_until` is skipped when the
counter is still zero and otherwise terminates the loop; any other byte is
appended and counted.  Returns the accumulated bytes and the rest of the
stream, or `none` when a read hits an exhausted stream (`socket.timeout`). -/
def recvLoop (ru ms : Nat) : List Nat → Nat → List Nat → Option (List Nat × List Nat)
  | [], counter, data => if counter < ms then none else some (data, [])
  | b :: rest, counter, data =>
    if counter < ms then
      if b = ru then
        if counter = 0 then recvLoop ru ms rest counter data
        else some (data, rest)
      else recvLoop ru ms rest (counter + 1) (data ++ [b])
    else some (data, b :: rest)

/-- Python `bytes.decode('ascii')`: every byte must be below 128. -/
def asciiDecode : List Nat → Option Str
  | [] => some []
  | b :: rest =>
    if b < 128 then (asciiDecode rest).map (fun t => Char.ofNat b :: t)
    else none

/-- The function `write_command_and_read_output` of `util.py` and
`configure_ipmc.py`, driven by the list of bytes the peer sends: the echo
phase reads one byte per command character, then the receive loop runs, then
two trailing bytes are read and discarded unconditionally, and finally the
accumulated bytes are decoded as ASCII.  `none` models an uncaught
`socket.timeout` (or decode error) raised inside the function. -/
def write_command_and_read_output (command : Str) (max_size read_until : Nat)
    (stream : List Nat) : Option (Str × List Nat) :=
  match recvN command.length stream with
  | none => none
  | some s1 =>
    match recvLoop read_until max_size s1 0 [] with
    | none => none
    | some (data, s2) =>
      match recvN 2 s2 with
      | none => none
      | some s3 =>
        match asciiDecode data with
        | none => none
        | some text => some (text, s3)

/-- Result of the exchange for one write command, as seen by the `try` block
in the command loop of `main`: the decoded output, or a `socket.timeout`. -/
inductive Outcome
  | ok (out : Str)
  | timeout
deriving DecidableEq

/-- Observable steps of the command loop of `main`: a command is issued, its
outcome is printed, and `time.sleep(0.5)` runs on the success path. -/
inductive Event
  | issued (cmd : Str)
  | cmdOk
  | cmdTimedOut
  | slept
deriving DecidableEq

/-- The command loop of `main`: for each command, try the exchange; on success
print OK, bind the variable `output`, and sleep 0.5 s; on `socket.timeout`
print the skip message and `continue` (which bypasses the sleep).  Returns
the event trace and the final value of the variable `output`, which is `none`
when no exchange ever succeeded (the variable was never assigned). -/
def runCommands : List (Str × Outcome) → List Event × Option Str
  | [] => ([], none)
  | (c, Outcome.ok o) :: rest =>
    let r := runCommands rest
    (Event.issued c :: Event.cmdOk :: Event.slept :: r.1, some (r.2.getD o))
  | (c, Outcome.timeout) :: rest =>
    let r := runCommands rest
    (Event.issued c :: Event.cmdTimedOut :: r.1, r.2)

/-- What the tail of `main` does after the final `eepromrd` exchange: if the
loop variable `output` was never assigned, evaluating it raises `NameError`;
otherwise `validate_command_output(output, config)` runs. -/
inductive RunResult
  | nameError
  | validated (b : Bool)
deriving DecidableEq

/-- The tail of `main` of `configure_ipmc.py`, for a run in which the final
status-dump exchange completes with text `dumpOut`: run the command loop,
print `dumpOut`, then call `validate_command_output(output, config)` — on the
loop variable `output`, not on `dumpOut`.  Returns the command-loop trace,
the printed dump text, and the result of the validation step. -/
def main_run (cmds : List (Str × Outcome)) (dumpOut : Str) (config : ConfigT) :
    List Event × Str × RunResult :=
  let r := runCommands cmds
  match r.2 with
  | none => (r.1, dumpOut, RunResult.nameError)
  | some output => (r.1, dumpOut, RunResult.validated (validate_command_output output config).2)

/-- Join lines with a newline separator (used to build test status dumps). -/
def joinLines : List Str → Str
  | [] => []
  | [l] => l
  | l :: rest => l ++ ['\n'] ++ joinLines rest

/-- Build a status dump from key/value pairs, one `key = value` line each. -/
def buildDump (pairs : List (Str × Str)) : Str :=
  joinLines (pairs.map (fun p => p.1 ++ chars " = " ++ p.2))

/-- The parse of the status dump as the specification words it, with no
restriction to the expected keys: every line containing `=` contributes its
stripped before-first-`=` key and stripped after-last-`=` value. -/
def extractAllPairs (output : Str) : List (Str × Str) :=
  (splitOnChar '\n' output).filterMap (fun token =>
    if token.contains '=' then
      let items := splitOnChar '=' token
      some (pyStrip items.headI, pyStrip items.getLastI)
    else none)

/-- The canonical round-trip configuration of the specification. -/
def cfgCanon : ConfigT :=
  ⟨207, 3, 1, 1, chars "aa:bb:cc:dd:ee:ff", chars "11:22:33:44:55:66"⟩

/-- The keys of the expected dictionary for the canonical configuration. -/
def keysCanon : List Str := (expected_of cfgCanon).map Prod.fst

/-- The status dump a correctly configured controller reports back. -/
def dumpCanon : Str := buildDump (expected_of cfgCanon)

/-- A status dump in which exactly the `bootmode` key mismatches (`0x00`
instead of the expected `0x01`) while every other expected key matches. -/
def dumpBadC3 : Str := buildDump
  [ (chars "prom version", chars "0x01")
  , (chars "bootmode", chars "0x00")
  , (chars "hw", chars "rev3 #207")
  , (chars "eth0_mac", chars "aa:bb:cc:dd:ee:ff")
  , (chars "eth1_mac", chars "11:22:33:44:55:66") ]

/-- Whether a diagnostic event is about the given expected key. -/
def VEvent.aboutKey : VEvent → Str → Bool
  | VEvent.keyNotFound j, k => j = k
  | VEvent.keyMismatch j, k => j = k
  | VEvent.okAll, _ => false

/-- Whether a command-loop event is the issuing of some command. -/
def Event.isIssued : Event → Bool
  | Event.issued _ => true
  | _ => false

/-- Whether a command-loop event is the 0.5 s settle delay. -/
def Event.isSettleDelay : Event → Bool
  | Event.slept => true
  | _ => false

/-- Whether an exchange outcome is a success. -/
def Outcome.isOk : Outcome → Bool
  | Outcome.ok _ => true
  | Outcome.timeout => false

/-- Does the whole required field table pass the presence check of
`validate_config` (every group present and every field within it present)? -/
def requiredFieldsPresent (config : Config) : Bool :=
  CONFIG_TO_COMMANDS.all (fun p =>
    match lookupLast config p.1 with
    | none => false
    | some sub => (p.2.map Prod.fst).all (fun sk => (lookupLast sub sk).isSome))

/-- A run of the command loop in which the first command times out and the
second succeeds (with an empty response). -/
def cmdsC5 : List (Str × Outcome) :=
  [(chars "idwr 207\r\n", Outcome.timeout), (chars "revwr 3\r\n", Outcome.ok [])]

/-- A run of the command loop in which every write command succeeds and, as
for the real write commands, each response body is empty. -/
def cmdsC1 : List (Str × Outcome) :=
  [ (chars "idwr 207\r\n", Outcome.ok [])
  , (chars "revwr 3\r\n", Outcome.ok [])
  , (chars "verwr 1\r\n", Outcome.ok [])
  , (chars "bootmode 1\r\n", Outcome.ok [])
  , (chars "ethmacwr 0 aa bb cc dd ee ff\r\n", Outcome.ok [])
  , (chars "ethmacwr 1 11 22 33 44 55 66\r\n", Outcome.ok []) ]

/-- A prefix of expected keys all of which are present and matching in the
parsed mapping is traversed by the comparison loop without any report. -/
theorem compareLoop_prefix_matches (mapping : List (Str × Str)) :
    ∀ pre tail, (∀ p ∈ pre, lookupLast mapping p.1 = some p.2) →
      compareLoop mapping (pre ++ tail) = compareLoop mapping tail
  | [], _, _ => rfl
  | (qk, qv) :: qre, tail, hpre => by
    have hq : lookupLast mapping qk = some qv := hpre (qk, qv) (by simp)
    have ht := compareLoop_prefix_matches mapping qre tail (fun p hp => hpre p (by simp [hp]))
    simp [List.cons_append, compareLoop, hq, ht]

/-- C6.  Round-trip: the `ExpectedState` derived from the canonical
configuration (`board.serial = 207`, `board.rev = 3`, `eeprom.version = 1`,
`zynq.bootmode = 1`, the two MAC strings) is exactly the mapping the
specification lists, and `validate_command_output` applied to a status dump
built from exactly those key/value pairs reports full success. -/
theorem c6_roundtrip :
    expected_of cfgCanon =
      [ (chars "prom version", chars "0x01")
      , (chars "bootmode", chars "0x01")
      , (chars "hw", chars "rev3 #207")
      , (chars "eth0_mac", chars "aa:bb:cc:dd:ee:ff")
      , (chars "eth1_mac", chars "11:22:33:44:55:66") ] ∧
    validate_command_output dumpCanon cfgCanon = ([VEvent.okAll], true) := by decide

/-- C4 counterexample.  The line `foo = bar` contains `=` and the
unrestricted parse of the specification maps `foo` to `bar`, yet the parse
the code performs drops it, because `foo` is not one of the expected keys:
the claim that every `=` line is kept, including keys outside the expected
set, is false. -/
theorem c4_counterexample :
    (chars "foo = bar").contains '=' = true ∧
    lookupLast (extractAllPairs (chars "foo = bar")) (chars "foo") = some (chars "bar") ∧
    lookupLast (extract_mapping keysCanon (chars "foo = bar")) (chars "foo") = none := by
  decide

/-- C4 amended.  The parse performed by `validate_command_output` equals the
specification's unrestricted parse (trim around the first/last `=`, ignore
lines without `=`, last occurrence wins) restricted to the expected keys:
entries whose key is outside the expected set are dropped, everything else
is identical. -/
theorem c4_parse_restricted_to_expected_keys (keys : List Str) (output : Str) :
    extract_mapping keys output =
      (extractAllPairs output).filter (fun p => keys.contains p.1) := by
  unfold extract_mapping extractAllPairs
  generalize splitOnChar '\n' output = ls
  induction ls with
  | nil => rfl
  | cons t ts ih =>
    simp only [List.filterMap_cons, lineEntry]
    by_cases h : '=' ∈ t
    · by_cases hk : pyStrip (splitOnChar '=' t).headI ∈ keys
      · simp [h, hk, List.filter_cons, ih]
      · simp [h, hk, ih]
    · simp [h, ih]

/-- C4 witness: the restriction equation evaluated on a concrete dump that
mixes an expected key with an unexpected one. -/
theorem c4_witness :
    extract_mapping keysCanon (chars "hw = rev3 #207\nfoo = bar") =
      (extractAllPairs (chars "hw = rev3 #207\nfoo = bar")).filter
        (fun p => keysCanon.contains p.1) :=
  c4_parse_restricted_to_expected_keys keysCanon (chars "hw = rev3 #207\nfoo = bar")

/-- C3 counterexample.  With only `bootmode` mismatching (`0x00` instead of
`0x01`), the verifier's full report is the single mismatch diagnostic: the
expected key `hw` (and every other matching key) receives no status at all,
so the claim that a status is reported for every expected key — success
included — is false. -/
theorem c3_counterexample :
    (validate_command_output dumpBadC3 cfgCanon).1 =
      [VEvent.keyMismatch (chars "bootmode")] ∧
    (validate_command_output dumpBadC3 cfgCanon).2 = false ∧
    (chars "hw") ∈ (expected_of cfgCanon).map Prod.fst ∧
    ((validate_command_output dumpBadC3 cfgCanon).1.any
      (fun e => VEvent.aboutKey e (chars "hw"))) = false := by decide

/-- C3 amended.  The comparison loop of `validate_command_output` succeeds
exactly when every expected key is present and matching, and it
short-circuits: when the expected keys start with a block of
present-and-matching keys followed by a present-but-mismatching key, the
report consists of that key's mismatch diagnostic alone and the result is
failure — no status is reported for any other key. -/
theorem c3_verify_short_circuits :
    (∀ mapping expected : List (Str × Str), (compareLoop mapping expected).2 = true ↔
        ∀ p ∈ expected, lookupLast mapping p.1 = some p.2) ∧
    (∀ mapping pre : List (Str × Str), ∀ k v : Str, ∀ post : List (Str × Str), ∀ w : Str,
        (∀ p ∈ pre, lookupLast mapping p.1 = some p.2) →
        lookupLast mapping k = some w → w ≠ v →
        compareLoop mapping (pre ++ (k, v) :: post) =
          ([VEvent.keyMismatch k], false)) := by
  constructor
  · intro mapping expected
    induction expected with
    | nil => simp [compareLoop]
    | cons p rest ih =>
      obtain ⟨k, v⟩ := p
      simp only [compareLoop]
      cases hkv : lookupLast mapping k with
      | none => simp [hkv]
      | some w =>
        by_cases hw : w = v
        · subst hw
          simp [hkv, ih]
        · simp [hkv, hw]
  · intro mapping pre k v post w hpre hk hval
    rw [compareLoop_prefix_matches mapping pre ((k, v) :: post) hpre]
    simp [compareLoop, hk, hval]

/-- C3 witness: the short-circuit equation evaluated on the parsed mapping of
the bootmode-mismatch dump against the canonical expected list. -/
theorem c3_witness :
    compareLoop (extract_mapping keysCanon dumpBadC3)
      ([(chars "prom version", chars "0x01")] ++
        (chars "bootmode", chars "0x01") ::
          [ (chars "hw", chars "rev3 #207")
          , (chars "eth0_mac", chars "aa:bb:cc:dd:ee:ff")
          , (chars "eth1_mac", chars "11:22:33:44:55:66") ]) =
      ([VEvent.keyMismatch (chars "bootmode")], false) :=
  c3_verify_short_circuits.2 (extract_mapping keysCanon dumpBadC3)
    [(chars "prom version", chars "0x01")] (chars "bootmode") (chars "0x01")
    [ (chars "hw", chars "rev3 #207")
    , (chars "eth0_mac", chars "aa:bb:cc:dd:ee:ff")
    , (chars "eth1_mac", chars "11:22:33:44:55:66") ]
    (chars "0x00") (by decide) (by decide) (by decide)

/-- C5 counterexample.  When the first command times out and the second
succeeds, the trace of the command loop goes directly from the timeout
diagnostic to issuing the next command: no settle delay occurs anywhere in
the first three events, so the claim that the 0.5 s delay is allowed before
the next command on the timeout path is false. -/
theorem c5_counterexample :
    (runCommands cmdsC5).1 =
      [ Event.issued (chars "idwr 207\r\n"), Event.cmdTimedOut
      , Event.issued (chars "revwr 3\r\n"), Event.cmdOk, Event.slept ] ∧
    Event.slept ∉ (runCommands cmdsC5).1.take 3 := by decide

/-- C5 amended.  A command whose exchange times out is skipped and the loop
continues: every command is issued exactly once whatever the outcomes; but
the 0.5 s settle delay runs only on the success path — the trace holds one
settle-delay event per successful exchange and none for a timeout. -/
theorem c5_settle_delay_only_after_success (cmds : List (Str × Outcome)) :
    ((runCommands cmds).1.countP Event.isIssued) = cmds.length ∧
    ((runCommands cmds).1.countP Event.isSettleDelay) =
      cmds.countP (fun p => p.2.isOk) := by
  induction cmds with
  | nil => simp [runCommands]
  | cons p rest ih =>
    obtain ⟨c, o⟩ := p
    cases o with
    | ok out =>
      simp only [runCommands, List.countP_cons]
      constructor
      · simp [ih.1, Event.isIssued, Event.isSettleDelay, Outcome.isOk]
      · simp [ih.2, Event.isIssued, Event.isSettleDelay, Outcome.isOk]
    | timeout =>
      simp only [runCommands, List.countP_cons]
      constructor
      · simp [ih.1, Event.isIssued, Event.isSettleDelay, Outcome.isOk]
      · simp [ih.2, Event.isIssued, Event.isSettleDelay, Outcome.isOk]

/-- C5 witness: the issue/settle-delay counts evaluated on the concrete
timeout-then-success run. -/
theorem c5_witness :
    ((runCommands cmdsC5).1.countP Event.isIssued) = 2 ∧
    ((runCommands cmdsC5).1.countP Event.isSettleDelay) = 1 :=
  ⟨(c5_settle_delay_only_after_success cmdsC5).1.trans (by decide),
   (c5_settle_delay_only_after_success cmdsC5).2.trans (by decide)⟩

/-- C1.  The verification step of `main` is applied to the loop variable
`output` — the response of the last successful write command — and not to
`out`, the text of the final status-dump exchange: in a run where every
write succeeds with an empty response and the final `eepromrd` read-back
returns a fully matching dump, the run's validation reports failure even
though validating the status-dump text itself succeeds. -/
theorem c1_validates_stale_write_output :
    (main_run cmdsC1 dumpCanon cfgCanon).2.2 = RunResult.validated false ∧
    (validate_command_output dumpCanon cfgCanon).2 = true := by decide

/-- Reading exactly the length of a prefix consumes that prefix. -/
theorem recvN_exact (a s : List Nat) : recvN a.length (a ++ s) = some s := by
  induction a with
  | nil => rfl
  | cons x xs ih => exact ih

/-- When the remaining byte budget equals the number of pending non-prompt
bytes, the receive loop consumes exactly those bytes and stops with the
budget exhausted, leaving the rest of the stream unread. -/
theorem recvLoop_budget (ru ms : Nat) :
    ∀ bytes rest counter data, (∀ b ∈ bytes, b ≠ ru) → counter + bytes.length = ms →
      recvLoop ru ms (bytes ++ rest) counter data = some (data ++ bytes, rest)
  | [], rest, counter, data, _, hlen => by
    have hc : counter = ms := by simpa using hlen
    subst hc
    cases rest with
    | nil => simp [recvLoop, Nat.lt_irrefl]
    | cons b r => simp [recvLoop, Nat.lt_irrefl]
  | b :: bs, rest, counter, data, hnp, hlen => by
    have hb : b ≠ ru := hnp b (List.mem_cons_self _ _)
    have hlen' : counter + (bs.length + 1) = ms := by simpa using hlen
    have hlt : counter < ms := by omega
    simp only [List.cons_append, recvLoop, if_pos hlt, if_neg hb]
    have ih := recvLoop_budget ru ms bs rest (counter + 1) (data ++ [b])
      (fun x hx => hnp x (List.mem_cons_of_mem _ hx)) (by omega)
    simpa using ih

/-- While the budget is not exhausted, the receive loop consumes a block of
non-prompt bytes and is then terminated by a prompt byte, provided at least
one byte has been counted when the prompt arrives. -/
theorem recvLoop_until_prompt (ru ms : Nat) :
    ∀ bytes rest counter data, (∀ b ∈ bytes, b ≠ ru) → counter + bytes.length < ms →
      counter + bytes.length ≠ 0 →
      recvLoop ru ms (bytes ++ ru :: rest) counter data = some (data ++ bytes, rest)
  | [], rest, counter, data, _, hlt, hne => by
    have h1 : counter < ms := by simpa using hlt
    have h2 : counter ≠ 0 := by simpa using hne
    simp [recvLoop, h1, h2]
  | b :: bs, rest, counter, data, hnp, hlt, hne => by
    have hb : b ≠ ru := hnp b (List.mem_cons_self _ _)
    have hlt' : counter + (bs.length + 1) < ms := by simpa using hlt
    have hc : counter < ms := by omega
    simp only [List.cons_append, recvLoop, if_pos hc, if_neg hb]
    have ih := recvLoop_until_prompt ru ms bs rest (counter + 1) (data ++ [b])
      (fun x hx => hnp x (List.mem_cons_of_mem _ hx)) (by omega) (by omega)
    simpa using ih

/-- Decoding a list of bytes below 128 succeeds byte for byte. -/
theorem asciiDecode_all_ascii : ∀ bytes : List Nat, (∀ b ∈ bytes, b < 128) →
    asciiDecode bytes = some (bytes.map Char.ofNat)
  | [], _ => rfl
  | b :: rest, h => by
    have hb : b < 128 := h b (List.mem_cons_self _ _)
    have ih := asciiDecode_all_ascii rest (fun x hx => h x (List.mem_cons_of_mem _ hx))
    simp [asciiDecode, hb, ih]

/-- C2 counterexample.  A stream that echoes the command and then delivers
exactly `max_size` (= 3) non-prompt bytes and nothing more does not make the
exchange return those bytes: the two trailing discard reads still run, find
the stream exhausted, and the exchange times out (returns `none`), so the
claim that no further reads are required is false. -/
theorem c2_counterexample :
    write_command_and_read_output (chars "eepromrd\r\n") 3 62
      (List.replicate 10 101 ++ [65, 66, 67]) = none := by decide

/-- C2 amended.  When the stream delivers `max_size` non-prompt bytes with no
terminating prompt, the exchange still performs two further discard reads
after the budget is exhausted; only if the stream delivers two more bytes
does it return the accumulated `max_size` bytes (decoded as ASCII), and the
response never raises for such a stream only under that condition. -/
theorem c2_budget_exhaustion_still_reads_suffix (cmd : Str) (ms ru : Nat)
    (echo bytes : List Nat) (x y : Nat) (rest : List Nat)
    (hech : echo.length = cmd.length) (hlen : bytes.length = ms)
    (hnp : ∀ b ∈ bytes, b ≠ ru) (hascii : ∀ b ∈ bytes, b < 128) :
    write_command_and_read_output cmd ms ru (echo ++ (bytes ++ x :: y :: rest)) =
      some (bytes.map Char.ofNat, rest) := by
  unfold write_command_and_read_output
  rw [← hech]
  have h1 := recvN_exact echo (bytes ++ x :: y :: rest)
  have h2 := recvLoop_budget ru ms bytes (x :: y :: rest) 0 [] hnp (by simpa using hlen)
  have h3 : recvN 2 (x :: y :: rest) = some rest := rfl
  have h4 := asciiDecode_all_ascii bytes hascii
  simp [h1, h2, h3, h4]

/-- C2 witness: the amended statement evaluated on a concrete stream — the
echo of `eepromrd\r\n`, three non-prompt bytes `ABC` against a budget of 3,
and then the two trailing suffix bytes. -/
theorem c2_witness :
    write_command_and_read_output (chars "eepromrd\r\n") 3 62
      (List.replicate 10 101 ++ ([65, 66, 67] ++ 62 :: 32 :: [])) =
      some (chars "ABC", []) :=
  (c2_budget_exhaustion_still_reads_suffix (chars "eepromrd\r\n") 3 62
    (List.replicate 10 101) [65, 66, 67] 62 32 []
    (by decide) (by decide) (by decide) (by decide)).trans (by decide)

/-- C8.  In the receive loop: a prompt byte arriving while the counter is
still zero is silently skipped — not counted, not appended, the loop simply
continues on the rest of the stream; a prompt byte arriving after at least
one byte has been counted terminates the loop with the accumulated data; and
consequently an exchange whose first received byte is the prompt marker
still returns the real (nonempty) response that follows it. -/
theorem c8_prompt_skip_semantics :
    (∀ ru ms : Nat, ∀ stream : List Nat, 0 < ms →
        recvLoop ru ms (ru :: stream) 0 [] = recvLoop ru ms stream 0 []) ∧
    (∀ ru ms counter : Nat, ∀ data stream : List Nat, counter < ms → counter ≠ 0 →
        recvLoop ru ms (ru :: stream) counter data = some (data, stream)) ∧
    (∀ ru ms : Nat, ∀ bytes rest : List Nat, bytes ≠ [] → (∀ b ∈ bytes, b ≠ ru) →
        bytes.length < ms →
        recvLoop ru ms (ru :: (bytes ++ ru :: rest)) 0 [] = some (bytes, rest)) := by
  refine ⟨?_, ?_, ?_⟩
  · intro ru ms stream h
    simp [recvLoop, h]
  · intro ru ms counter data stream h h0
    simp [recvLoop, h, h0]
  · intro ru ms bytes rest hne hnp hlt
    have hms : 0 < ms := Nat.lt_of_le_of_lt (Nat.zero_le _) hlt
    have hskip : recvLoop ru ms (ru :: (bytes ++ ru :: rest)) 0 [] =
        recvLoop ru ms (bytes ++ ru :: rest) 0 [] := by simp [recvLoop, hms]
    have hpos : bytes.length ≠ 0 := by
      intro h0
      exact hne (List.length_eq_zero.mp h0)
    have hmain := recvLoop_until_prompt ru ms bytes rest 0 [] hnp
      (by simpa using hlt) (by simpa using hpos)
    rw [hskip]
    simpa using hmain

/-- C8 witness: with prompt byte 62 and budget 5, the stream
`[62, 65, 66, 62, 99]` — a leftover prompt, two data bytes, the terminating
prompt, trailing garbage — yields exactly the two data bytes. -/
theorem c8_witness :
    recvLoop 62 5 [62, 65, 66, 62, 99] 0 [] = some ([65, 66], [99]) :=
  c8_prompt_skip_semantics.2.2 62 5 [65, 66] [99] (by decide) (by decide) (by decide)

/-- Every subkey of a group that passes `checkSubkeys` is present. -/
theorem checkSubkeys_ok_all (sub : List (Str × ConfigVal)) :
    ∀ sks : List Str, checkSubkeys sub sks = Except.ok () →
      sks.all (fun sk => (lookupLast sub sk).isSome) = true
  | [], _ => rfl
  | sk :: rest, h => by
    cases hv : lookupLast sub sk with
    | none => simp [checkSubkeys, hv] at h
    | some v =>
      simp only [checkSubkeys, hv] at h
      have ih := checkSubkeys_ok_all sub rest h
      simp [hv, ih]

/-- If `validate_config` accepts a configuration, every required group and
every required field within it is present. -/
theorem validate_config_ok_all (config : Config) :
    ∀ specs : List (Str × List (Str × Str)), validateConfigAux config specs = Except.ok () →
      specs.all (fun p =>
        match lookupLast config p.1 with
        | none => false
        | some sub => (p.2.map Prod.fst).all (fun sk => (lookupLast sub sk).isSome)) = true
  | [], _ => rfl
  | (key, item) :: rest, h => by
    cases hg : lookupLast config key with
    | none => simp [validateConfigAux, hg] at h
    | some sub =>
      simp only [validateConfigAux, hg] at h
      cases hc : checkSubkeys sub (item.map Prod.fst) with
      | error e => rw [hc] at h; cases h
      | ok u =>
        cases u
        rw [hc] at h
        have h1 := checkSubkeys_ok_all sub (item.map Prod.fst) hc
        have h2 := validate_config_ok_all config rest h
        simp [hg, h1, h2]

/-- C7.  For every configuration in which some required group or
field-within-group of the command table is missing, the run fails in
`validate_config`, before `get_commands` builds any command: the
configuration pipeline produces an error and never a command list. -/
theorem c7_missing_field_aborts (config : Config)
    (h : requiredFieldsPresent config = false) :
    ∃ e, validate_config config = Except.error e ∧
      configure_pipeline config = Except.error e := by
  cases hv : validate_config config with
  | error e => exact ⟨e, rfl, by simp [configure_pipeline, hv]⟩
  | ok u =>
    cases u
    have hall := validate_config_ok_all config CONFIG_TO_COMMANDS hv
    rw [requiredFieldsPresent] at h
    rw [hall] at h
    cases h

/-- C7 witness: the canonical configuration with `mac.eth1` removed is
rejected before any command is generated. -/
def cfgMissingEth1 : Config :=
  [ (chars "board", [(chars "serial", ConfigVal.vint 207), (chars "rev", ConfigVal.vint 3)])
  , (chars "eeprom", [(chars "version", ConfigVal.vint 1)])
  , (chars "zynq", [(chars "bootmode", ConfigVal.vint 1)])
  , (chars "mac", [(chars "eth0", ConfigVal.vstr (chars "aa:bb:cc:dd:ee:ff"))]) ]

/-- C7 witness theorem. -/
theorem c7_witness :
    ∃ e, validate_config cfgMissingEth1 = Except.error e ∧
      configure_pipeline cfgMissingEth1 = Except.error e :=
  c7_missing_field_aborts cfgMissingEth1 (by decide)

/-- The colon-to-space substitution leaves no colon behind. -/
theorem pyReplace_colon_not_mem (s : Str) : ':' ∉ pyReplace ':' ' ' s := by
  intro hmem
  unfold pyReplace at hmem
  rw [List.mem_map] at hmem
  obtain ⟨a, _, ha⟩ := hmem
  by_cases h : a = ':'
  · rw [if_pos h] at ha
    exact absurd ha (by decide)
  · rw [if_neg h] at ha
    exact h ha

/-- No command emitted for a group contains a colon, provided the command
keywords themselves contain none. -/
theorem getCommandsGroup_no_colon (sub : List (Str × ConfigVal)) :
    ∀ specs : List (Str × Str), (∀ p ∈ specs, ':' ∉ p.2) →
      ∀ cs, getCommandsGroup sub specs = Except.ok cs → ∀ c ∈ cs, ':' ∉ c
  | [], _, cs, h => by
    simp only [getCommandsGroup] at h
    cases h
    intro c hc
    exact absurd hc (List.not_mem_nil c)
  | (subkey, base) :: rest, hb, cs, h => by
    simp only [getCommandsGroup] at h
    cases hv : lookupLast sub subkey with
    | none => rw [hv] at h; cases h
    | some v =>
      rw [hv] at h
      cases hr : getCommandsGroup sub rest with
      | error e => rw [hr] at h; cases h
      | ok cs2 =>
        rw [hr] at h
        cases h
        intro c hc
        rcases List.mem_cons.mp hc with hceq | hcs
        · subst hceq
          intro hcolon
          have hbase : ':' ∉ base := hb (subkey, base) (List.mem_cons_self _ _)
          simp only [List.append_assoc, List.mem_append, List.mem_singleton] at hcolon
          rcases hcolon with h1 | h2 | h3 | h4
          · exact hbase h1
          · exact absurd h2 (by decide)
          · exact pyReplace_colon_not_mem _ h3
          · exact absurd h4 (by decide)
        · exact getCommandsGroup_no_colon sub rest
            (fun p hp => hb p (List.mem_cons_of_mem _ hp)) cs2 hr c hcs

/-- No command emitted by the command-table walk contains a colon, provided
no command keyword of the table contains one. -/
theorem getCommandsAux_no_colon (config : Config) :
    ∀ specs : List (Str × List (Str × Str)), (∀ g ∈ specs, ∀ p ∈ g.2, ':' ∉ p.2) →
      ∀ cs, getCommandsAux config specs = Except.ok cs → ∀ c ∈ cs, ':' ∉ c
  | [], _, cs, h => by
    simp only [getCommandsAux] at h
    cases h
    intro c hc
    exact absurd hc (List.not_mem_nil c)
  | (key, item) :: rest, hb, cs, h => by
    cases hg : lookupLast config key with
    | none => simp [getCommandsAux, hg] at h
    | some sub =>
      cases h1 : getCommandsGroup sub item with
      | error e => simp [getCommandsAux, hg, h1] at h
      | ok cs1 =>
        cases h2 : getCommandsAux config rest with
        | error e => simp [getCommandsAux, hg, h1, h2] at h
        | ok cs2 =>
          simp only [getCommandsAux, hg, h1, h2, Except.ok.injEq] at h
          subst h
          intro c hc
          rcases List.mem_append.mp hc with hc1 | hc2
          · exact getCommandsGroup_no_colon sub item
              (hb (key, item) (List.mem_cons_self _ _)) cs1 h1 c hc1
          · exact getCommandsAux_no_colon config rest
              (fun g hg2 => hb g (List.mem_cons_of_mem _ hg2)) cs2 h2 c hc2

/-- C9.  The colon-to-space substitution is applied to the string form of
every configuration value, not only MAC-valued fields: whenever
`get_commands` succeeds, no transmitted command line contains a colon. -/
theorem c9_colon_replaced_in_every_command (config : Config) (cmds : List Str)
    (h : get_commands config = Except.ok cmds) : ∀ c ∈ cmds, ':' ∉ c :=
  getCommandsAux_no_colon config CONFIG_TO_COMMANDS (by decide) cmds h

/-- C9 witness configuration: a colon inside the non-MAC field
`board.serial`. -/
def cfgColon : Config :=
  [ (chars "board", [(chars "serial", ConfigVal.vstr (chars "1:2")), (chars "rev", ConfigVal.vint 3)])
  , (chars "eeprom", [(chars "version", ConfigVal.vint 1)])
  , (chars "zynq", [(chars "bootmode", ConfigVal.vint 1)])
  , (chars "mac", [ (chars "eth0", ConfigVal.vstr (chars "aa:bb:cc:dd:ee:ff"))
                  , (chars "eth1", ConfigVal.vstr (chars "11:22:33:44:55:66")) ]) ]

/-- C9 witness commands: the colon in `board.serial` comes out as a space. -/
def cmdsColon : List Str :=
  [ chars "idwr 1 2\r\n"
  , chars "revwr 3\r\n"
  , chars "verwr 1\r\n"
  , chars "bootmode 1\r\n"
  , chars "ethmacwr 0 aa bb cc dd ee ff\r\n"
  , chars "ethmacwr 1 11 22 33 44 55 66\r\n" ]

/-- C9 witness theorem: the first generated command (for `board.serial`
valued `1:2`) carries no colon. -/
theorem c9_witness : ':' ∉ chars "idwr 1 2\r\n" :=
  c9_colon_replaced_in_every_command cfgColon cmdsColon rfl
    (chars "idwr 1 2\r\n") (by decide)

/-- If every write command times out, the loop variable `output` is never
assigned. -/
theorem runCommands_all_timeout : ∀ cmds : List (Str × Outcome),
    (∀ p ∈ cmds, p.2 = Outcome.timeout) → (runCommands cmds).2 = none
  | [], _ => rfl
  | (c, o) :: rest, h => by
    have ho : o = Outcome.timeout := h (c, o) (List.mem_cons_self _ _)
    subst ho
    have ih := runCommands_all_timeout rest (fun q hq => h q (List.mem_cons_of_mem _ hq))
    simp [runCommands, ih]

/-- C10.  If the exchange of every generated write command times out while
the final status-dump exchange completes, the verification step of `main`
reads the never-assigned variable `output` and the run aborts with a
`NameError` instead of producing a verification result. -/
theorem c10_all_timeouts_give_name_error (cmds : List (Str × Outcome)) (dumpOut : Str)
    (config : ConfigT) (h : ∀ p ∈ cmds, p.2 = Outcome.timeout) :
    (main_run cmds dumpOut config).2.2 = RunResult.nameError := by
  have hnone := runCommands_all_timeout cmds h
  simp [main_run, hnone]

/-- C10 witness: two write commands, both timing out, with a completed final
read-back. -/
theorem c10_witness :
    (main_run [(chars "idwr 207\r\n", Outcome.timeout), (chars "verwr 1\r\n", Outcome.timeout)]
      dumpCanon cfgCanon).2.2 = RunResult.nameError :=
  c10_all_timeouts_give_name_error _ _ _ (by decide)
